import Mathlib

/-!
# Verification of the zora-cors-proxy SWR cache core

Shallow embedding of `src/api/get-propaganda.js` (and, where the claims
reference it, `src/unnamed/part_001`): a single-value stale-while-revalidate
cache (`fetchMarketCap` / `updateCache`), a bounded-retry wrapper
(`withRetry`), the CORS origin helper (`allowCors`), and the HTTP handler's
response shaping.

Timestamps are `Nat` (milliseconds, as `Date.now()`); the jitter drawn by
`Math.random()` is a rational in `[0, 1)`.  The JavaScript runtime is
single-threaded and cooperative, so `fetchMarketCap` and the background
revalidation body run atomically between `await` suspension points; the cache
is modelled as a labelled transition system whose steps are exactly those
atomic segments.
-/

/-- The configuration constants of the handler files
(`TIMEOUT_MS`, `RETRIES`, `BACKOFF_BASE_MS`, `CACHE_TTL_MS`,
`STALE_WHILE_REVALIDATE_MS`). -/
structure Config where
  timeoutMs : Nat
  retries : Nat
  backoffBaseMs : Nat
  cacheTtlMs : Nat
  staleWhileRevalidateMs : Nat
deriving DecidableEq, Repr

/-- Constants of `src/api/get-propaganda.js` (lines 19-23). -/
def mainConfig : Config :=
  { timeoutMs := 8000, retries := 2, backoffBaseMs := 250
    cacheTtlMs := 30000, staleWhileRevalidateMs := 60000 }

/-- Constants of `src/unnamed/part_001` (lines 9-13). -/
def part001Config : Config :=
  { timeoutMs := 8000, retries := 2, backoffBaseMs := 250
    cacheTtlMs := 60000, staleWhileRevalidateMs := 300000 }

/-! ## `withRetry` (src/api/get-propaganda.js lines 70-82)

```js
async function withRetry(fn, { retries = RETRIES, label = "op" } = {}) {
  let attempt = 0;
  while (true) {
    try {
      return await fn();
    } catch (e) {
      if (attempt >= retries) throw e;
      const backoff = BACKOFF_BASE_MS * Math.pow(2, attempt) + Math.random() * 100;
      await sleep(backoff);
      attempt++;
    }
  }
}
```

The embedding records a full trace of one run of the loop: the outcome of the
`n`-th invocation of `fn` is `fn n` (success value or thrown error), and the
`n`-th draw of `Math.random()` is `jit n ∈ [0,1)`.  `RetryTrace` records the
final result (return value or propagated error), the total number of times
`fn` was invoked, and the list of backoff sleeps performed, in order. -/

/-- Trace of one run of the `withRetry` loop. -/
structure RetryTrace (E A : Type) where
  result : Except E A
  calls : Nat
  sleeps : List ℚ

/-- `BACKOFF_BASE_MS * Math.pow(2, attempt) + Math.random() * 100` with the
random draw `jitter`. -/
def backoffDelay (cfg : Config) (attempt : Nat) (jitter : ℚ) : ℚ :=
  (cfg.backoffBaseMs : ℚ) * 2 ^ attempt + jitter * 100

/-- The `while (true)` loop of `withRetry`, at loop counter `attempt` with
`remaining = retries - attempt` failures still tolerated (the `attempt >=
retries` test of line 76 is exactly `remaining = 0`).  `calls` counts all
invocations of `fn` from attempt `0`. -/
def withRetryGo (cfg : Config) (fn : Nat → Except E A) (jit : Nat → ℚ)
    (attempt : Nat) : Nat → RetryTrace E A
  | 0 =>
    match fn attempt with
    | .ok a => ⟨.ok a, attempt + 1, []⟩
    | .error e => ⟨.error e, attempt + 1, []⟩
  | r + 1 =>
    match fn attempt with
    | .ok a => ⟨.ok a, attempt + 1, []⟩
    | .error _ =>
      let t := withRetryGo cfg fn jit (attempt + 1) r
      ⟨t.result, t.calls, backoffDelay cfg attempt (jit attempt) :: t.sleeps⟩

/-- `withRetry(fn)` with the default `retries = RETRIES` drawn from `cfg`. -/
def withRetry (cfg : Config) (fn : Nat → Except E A) (jit : Nat → ℚ) :
    RetryTrace E A :=
  withRetryGo cfg fn jit 0 cfg.retries

/-! Helper lemmas about the retry loop. -/

lemma withRetryGo_all_fail (cfg : Config) (fn : Nat → Except E A) (jit : Nat → ℚ)
    (hfail : ∀ i, ∃ e, fn i = .error e) :
    ∀ r attempt, (withRetryGo cfg fn jit attempt r).result = fn (attempt + r) ∧
      (withRetryGo cfg fn jit attempt r).calls = attempt + r + 1 := by
  intro r
  induction r with
  | zero =>
    intro attempt
    obtain ⟨e, he⟩ := hfail attempt
    simp [withRetryGo, he]
  | succ r ih =>
    intro attempt
    obtain ⟨e, he⟩ := hfail attempt
    have h := ih (attempt + 1)
    simp only [withRetryGo, he]
    refine ⟨?_, ?_⟩
    · rw [h.1]
      ring_nf
    · rw [h.2]
      ring_nf

lemma withRetryGo_first_success (cfg : Config) (fn : Nat → Except E A)
    (jit : Nat → ℚ) :
    ∀ r attempt k a, k ≤ r → fn (attempt + k) = .ok a →
      (∀ i, i < k → ∃ e, fn (attempt + i) = .error e) →
      (withRetryGo cfg fn jit attempt r).result = .ok a ∧
      (withRetryGo cfg fn jit attempt r).calls = attempt + k + 1 := by
  intro r
  induction r with
  | zero =>
    intro attempt k a hk hok _
    interval_cases k
    simp only [Nat.add_zero] at hok
    simp [withRetryGo, hok]
  | succ r ih =>
    intro attempt k a hk hok hprev
    cases k with
    | zero =>
      simp only [Nat.add_zero] at hok
      simp [withRetryGo, hok]
    | succ k =>
      obtain ⟨e, he⟩ := hprev 0 (Nat.succ_pos k)
      simp only [Nat.add_zero] at he
      have hk' : k ≤ r := Nat.le_of_succ_le_succ hk
      have hok' : fn (attempt + 1 + k) = .ok a := by
        rw [show attempt + 1 + k = attempt + (k + 1) by ring]
        exact hok
      have hprev' : ∀ i, i < k → ∃ e, fn (attempt + 1 + i) = .error e := by
        intro i hi
        rw [show attempt + 1 + i = attempt + (i + 1) by ring]
        exact hprev (i + 1) (Nat.succ_lt_succ hi)
      have h := ih (attempt + 1) k a hk' hok' hprev'
      simp only [withRetryGo, he]
      refine ⟨h.1, ?_⟩
      rw [h.2]
      ring_nf

lemma withRetryGo_sleeps (cfg : Config) (fn : Nat → Except E A) (jit : Nat → ℚ) :
    ∀ r attempt k d, ((withRetryGo cfg fn jit attempt r).sleeps)[k]? = some d →
      d = backoffDelay cfg (attempt + k) (jit (attempt + k)) := by
  intro r
  induction r with
  | zero =>
    intro attempt k d hd
    rcases h : fn attempt with e | a <;> simp [withRetryGo, h] at hd
  | succ r ih =>
    intro attempt k d hd
    rcases h : fn attempt with e | a
    · simp only [withRetryGo, h] at hd
      cases k with
      | zero =>
        simp at hd
        simp [← hd]
      | succ k =>
        simp only [List.getElem?_cons_succ] at hd
        have := ih (attempt + 1) k d hd
        rw [this]
        congr 1 <;> ring_nf
    · simp [withRetryGo, h] at hd

/-- **C3.** Retry exhaustion: a permanently failing operation is invoked
exactly `retries + 1` times and the error of the final attempt (the one with
loop counter `attempt = retries`) is propagated unchanged; and success at
attempt `k` (every earlier attempt having failed) returns that attempt's
result immediately after exactly `k + 1` invocations, so no further attempts
are made. -/
theorem withRetry_attempt_count (cfg : Config) (fn : Nat → Except E A)
    (jit : Nat → ℚ) :
    ((∀ i, ∃ e, fn i = .error e) →
      (withRetry cfg fn jit).calls = cfg.retries + 1 ∧
      (withRetry cfg fn jit).result = fn cfg.retries) ∧
    (∀ k a, k ≤ cfg.retries → fn k = .ok a →
      (∀ i, i < k → ∃ e, fn i = .error e) →
      (withRetry cfg fn jit).result = .ok a ∧
      (withRetry cfg fn jit).calls = k + 1) := by
  constructor
  · intro hfail
    have h := withRetryGo_all_fail cfg fn jit hfail cfg.retries 0
    simp only [Nat.zero_add] at h
    exact ⟨h.2, h.1⟩
  · intro k a hk hok hprev
    have h := withRetryGo_first_success cfg fn jit cfg.retries 0 k a hk
      (by simpa using hok) (by simpa using hprev)
    simpa using h

/-- Witness for `withRetry_attempt_count`: at `mainConfig` (`RETRIES = 2`)
with an always-failing operation the trace makes `3` calls and propagates the
last error; with an operation succeeding on attempt `1` the trace stops after
`2` calls. -/
theorem withRetry_attempt_count_witness :
    (((∀ i : ℕ, ∃ e, (fun _ : ℕ => (.error 7 : Except ℕ ℕ)) i = .error e) →
      (withRetry mainConfig (fun _ => (.error 7 : Except ℕ ℕ)) (fun _ => 0)).calls =
        mainConfig.retries + 1 ∧
      (withRetry mainConfig (fun _ => (.error 7 : Except ℕ ℕ)) (fun _ => 0)).result =
        (fun _ : ℕ => (.error 7 : Except ℕ ℕ)) mainConfig.retries) ∧
    (∀ k a, k ≤ mainConfig.retries →
      (fun i => if i = 0 then (.error 7 : Except ℕ ℕ) else .ok 5) k = .ok a →
      (∀ i, i < k → ∃ e,
        (fun i : ℕ => if i = 0 then (.error 7 : Except ℕ ℕ) else .ok 5) i = .error e) →
      (withRetry mainConfig (fun i => if i = 0 then (.error 7 : Except ℕ ℕ) else .ok 5)
        (fun _ => 0)).result = .ok a ∧
      (withRetry mainConfig (fun i => if i = 0 then (.error 7 : Except ℕ ℕ) else .ok 5)
        (fun _ => 0)).calls = k + 1)) ∧
    (withRetry mainConfig (fun _ => (.error 7 : Except ℕ ℕ)) (fun _ => 0)).calls = 3 := by
  refine ⟨⟨?_, ?_⟩, ?_⟩
  · exact (withRetry_attempt_count mainConfig _ _).1
  · exact (withRetry_attempt_count mainConfig _ _).2
  · exact ((withRetry_attempt_count mainConfig (fun _ => (.error 7 : Except ℕ ℕ))
      (fun _ => 0)).1 (fun _ => ⟨7, rfl⟩)).1

/-- **C8.** Backoff bounds: every sleep the retry loop performs — the one
recorded at index `i` of the trace, i.e. the delay between failed attempt `i`
and attempt `i + 1` — equals `backoffBaseMs * 2 ^ i + jitter * 100` for the
fresh random draw `jitter = jit i ∈ [0, 1)`, and therefore lies in
`[backoffBaseMs * 2 ^ i, backoffBaseMs * 2 ^ i + 100)`. -/
theorem backoff_bounds (cfg : Config) (fn : Nat → Except E A) (jit : Nat → ℚ)
    (i : Nat) (d : ℚ)
    (hj0 : 0 ≤ jit i) (hj1 : jit i < 1)
    (hd : ((withRetry cfg fn jit).sleeps)[i]? = some d) :
    d = (cfg.backoffBaseMs : ℚ) * 2 ^ i + jit i * 100 ∧
    (cfg.backoffBaseMs : ℚ) * 2 ^ i ≤ d ∧
    d < (cfg.backoffBaseMs : ℚ) * 2 ^ i + 100 := by
  have h := withRetryGo_sleeps cfg fn jit cfg.retries 0 i d hd
  simp only [Nat.zero_add] at h
  rw [backoffDelay] at h
  refine ⟨h, ?_, ?_⟩
  · rw [h]
    nlinarith [mul_nonneg hj0 (by norm_num : (0:ℚ) ≤ 100)]
  · rw [h]
    nlinarith

/-- Witness for `backoff_bounds`: with `mainConfig` (`BACKOFF_BASE_MS = 250`),
an always-failing operation and jitter draws all `1/2`, the sleep before
attempt `2` is `250 * 2 + 50 = 550` ms, inside `[500, 600)`. -/
theorem backoff_bounds_witness :
    (550 : ℚ) = (mainConfig.backoffBaseMs : ℚ) * 2 ^ 1 + (1/2 : ℚ) * 100 ∧
    (mainConfig.backoffBaseMs : ℚ) * 2 ^ 1 ≤ 550 ∧
    (550 : ℚ) < (mainConfig.backoffBaseMs : ℚ) * 2 ^ 1 + 100 := by
  exact backoff_bounds mainConfig (fun _ => (.error 0 : Except ℕ ℕ)) (fun _ => 1/2)
    1 550 (by norm_num) (by norm_num)
    (by simp [withRetry, withRetryGo, backoffDelay, mainConfig]; norm_num)

/-! ## The SWR cache (src/api/get-propaganda.js lines 30-36, 89-128, 155-164)

`fetchMarketCap` runs atomically from entry until it either returns or hits an
`await`; the background revalidation body (the async IIFE of lines 102-112)
runs atomically from its `await fetchFromZora()` resuming until it finishes.
The system is therefore a labelled transition system whose four step kinds are
exactly those atomic segments:

* `dispatch` — a caller's `fetchMarketCap()` runs its synchronous entry
  segment (lines 90-125) at some `Date.now()` reading `now`;
* `bgComplete` — an in-flight background revalidation's `fetchFromZora()`
  settles and the rest of the IIFE (lines 103-111) runs;
* `fgComplete` — a foreground caller's `fetchFromZora()` (line 125) settles
  and the rest of `fetchMarketCap` (lines 126-127) runs;
* `joinResume` — a caller suspended on `await cache.revalidationPromise`
  (line 120) resumes after that promise resolved and runs line 121.

Background revalidations are numbered by a generation counter so that a
suspended joiner knows which promise object it awaits; `bgTasks` holds the
generations still in flight and `resolved` the generations whose promise has
resolved.  Fetch outcomes and completion times are parameters of the step —
the upstream fetch is the opaque capability of the spec. -/

/-- The `source` tags of `fetchMarketCap`'s result (the spec's `SourceTag`). -/
inductive Tag
  | fresh
  | stale
  | revalidated
  | live
deriving DecidableEq, Repr

/-- The literal `source` strings of the code for each tag. -/
def Tag.toSource : Tag → String
  | .fresh => "cache-fresh"
  | .stale => "cache-stale"
  | .revalidated => "cache-revalidated"
  | .live => "live"

/-- The module-level `cache` object (lines 30-36).  `revalidationPromise`
holds the generation number of the promise currently stored in the field, or
`none` for `null`. -/
structure Cache (A : Type) where
  data : Option A
  expiresAt : Nat
  staleUntil : Nat
  isRevalidating : Bool
  revalidationPromise : Option Nat
deriving DecidableEq, Repr

/-- `updateCache` (lines 155-164): replaces the whole cache object in one
synchronous (hence atomic) assignment. -/
def updateCache (cfg : Config) (now : Nat) (d : A) : Cache A :=
  { data := some d
    expiresAt := now + cfg.cacheTtlMs
    staleUntil := now + cfg.cacheTtlMs + cfg.staleWhileRevalidateMs
    isRevalidating := false
    revalidationPromise := none }

instance instDecidableEqExcept [DecidableEq E] [DecidableEq A] :
    DecidableEq (Except E A)
  | .error e, .error f =>
    if h : e = f then .isTrue (by rw [h])
    else .isFalse (by intro hc; cases hc; exact h rfl)
  | .error _, .ok _ => .isFalse (by intro hc; cases hc)
  | .ok _, .error _ => .isFalse (by intro hc; cases hc)
  | .ok a, .ok b =>
    if h : a = b then .isTrue (by rw [h])
    else .isFalse (by intro hc; cases hc; exact h rfl)

/-- Where one logical caller of `fetchMarketCap` stands: not yet dispatched,
suspended on the shared revalidation promise of generation `g`, blocked on its
own foreground fetch, or finished with a result (`Except.error` models the
exception propagating out of `fetchMarketCap`; the data component is the
`cache.data` field as read by the returning line, hence an `Option`). -/
inductive CallerState (A E : Type)
  | ready
  | joining (g : Nat)
  | fetching
  | done (r : Except E (Option A × Tag))
deriving DecidableEq, Repr

/-- `true` exactly on a caller blocked on its own foreground fetch. -/
def CallerState.isFetching : CallerState A E → Bool
  | .fetching => true
  | _ => false

/-- Whole-system state: the cache object, the generations of in-flight
background revalidations, the generations whose promise has resolved, the
generation counter, and the callers. -/
structure Sys (A E : Type) where
  cache : Cache A
  bgTasks : List Nat
  resolved : List Nat
  revalGen : Nat
  callers : List (CallerState A E)
deriving DecidableEq, Repr

variable {A E : Type}

/-- Replace caller `i`'s state. -/
def setCaller (s : Sys A E) (i : Nat) (st : CallerState A E) : Sys A E :=
  { s with callers := s.callers.set i st }

/-- The synchronous entry segment of `fetchMarketCap` (lines 90-125) run by
caller `i` at `Date.now() = now`, mirroring the source's cascade:

* lines 93-95: `cache.data && cache.expiresAt > now` — fresh hit;
* lines 98-115: `cache.data && cache.staleUntil > now` — stale hit, starting
  a background revalidation only when `!cache.isRevalidating`
  (`cache.isRevalidating = true` and the promise assignment of lines 101-102
  happen in the same synchronous segment);
* lines 119-122: `cache.revalidationPromise` non-null — suspend on it;
* line 125: otherwise suspend on a fresh foreground `fetchFromZora()`. -/
def dispatch (s : Sys A E) (i now : Nat) : Sys A E :=
  let c := s.cache
  if c.data.isSome ∧ now < c.expiresAt then
    setCaller s i (.done (.ok (c.data, .fresh)))
  else if c.data.isSome ∧ now < c.staleUntil then
    if c.isRevalidating then
      setCaller s i (.done (.ok (c.data, .stale)))
    else
      { s with
        cache := { c with isRevalidating := true
                          revalidationPromise := some (s.revalGen + 1) }
        revalGen := s.revalGen + 1
        bgTasks := (s.revalGen + 1) :: s.bgTasks
        callers := s.callers.set i (.done (.ok (c.data, .stale))) }
  else
    match c.revalidationPromise with
    | some g => setCaller s i (.joining g)
    | none => setCaller s i .fetching

/-- Completion of the background revalidation of generation `g` (the IIFE
body, lines 103-111): on success `updateCache(freshData)`, on failure only a
`console.error`; in both cases the `finally` block then sets
`cache.isRevalidating = false` and `cache.revalidationPromise = null`
(unconditionally — even if the field meanwhile points to a later promise),
and the promise of generation `g` resolves. -/
def bgComplete (cfg : Config) (s : Sys A E) (g now : Nat)
    (outcome : Except E A) : Sys A E :=
  let c1 := match outcome with
    | .ok a => updateCache cfg now a
    | .error _ => s.cache
  { s with
    cache := { c1 with isRevalidating := false, revalidationPromise := none }
    bgTasks := s.bgTasks.erase g
    resolved := g :: s.resolved }

/-- Completion of caller `i`'s foreground `fetchFromZora()` (lines 125-127):
on success `updateCache(freshData)` and return `{ data: freshData, source:
"live" }`; on failure the exception propagates out of `fetchMarketCap`. -/
def fgComplete (cfg : Config) (s : Sys A E) (i now : Nat)
    (outcome : Except E A) : Sys A E :=
  match outcome with
  | .ok a =>
    { s with
      cache := updateCache cfg now a
      callers := s.callers.set i (.done (.ok (some a, .live))) }
  | .error e => setCaller s i (.done (.error e))

/-- Caller `i` resumes from `await cache.revalidationPromise` and runs line
121: `return { data: cache.data, source: "cache-revalidated" }`, reading
`cache.data` as it is at resumption time. -/
def joinResume (s : Sys A E) (i : Nat) : Sys A E :=
  setCaller s i (.done (.ok (s.cache.data, .revalidated)))

/-- One atomic step of the system.  Guards: only a not-yet-dispatched caller
dispatches; only an in-flight background generation completes; only a caller
blocked on its foreground fetch sees it settle; a joiner resumes only after
the generation it awaits has resolved. -/
inductive Step (cfg : Config) : Sys A E → Sys A E → Prop
  | dispatch (s : Sys A E) (i now : Nat) :
      s.callers[i]? = some .ready → Step cfg s (dispatch s i now)
  | bgComplete (s : Sys A E) (g now : Nat) (outcome : Except E A) :
      g ∈ s.bgTasks → Step cfg s (bgComplete cfg s g now outcome)
  | fgComplete (s : Sys A E) (i now : Nat) (outcome : Except E A) :
      s.callers[i]? = some .fetching → Step cfg s (fgComplete cfg s i now outcome)
  | joinResume (s : Sys A E) (i g : Nat) :
      s.callers[i]? = some (.joining g) → g ∈ s.resolved →
      Step cfg s (joinResume s i)

/-- Finite executions of the system. -/
inductive Steps (cfg : Config) : Sys A E → Sys A E → Prop
  | refl (s : Sys A E) : Steps cfg s s
  | tail {s t u : Sys A E} : Steps cfg s t → Step cfg t u → Steps cfg s u

/-- The module-level initialiser of `cache` (lines 30-36). -/
def initCache : Cache A :=
  { data := none, expiresAt := 0, staleUntil := 0
    isRevalidating := false, revalidationPromise := none }

/-- Process start with `n` logical callers about to invoke the handler. -/
def initSys (A E : Type) (n : Nat) : Sys A E :=
  { cache := initCache, bgTasks := [], resolved := [], revalGen := 0
    callers := List.replicate n .ready }

/-- Number of fetch operations in flight: in-flight background revalidations
plus callers blocked on their own foreground fetch. -/
def fetchesInFlight (s : Sys A E) : Nat :=
  s.bgTasks.length + s.callers.countP (fun st => st.isFetching)

/-- Fold of `dispatch` over a list of (caller index, `Date.now()` reading)
pairs: `N` callers entering `fetchMarketCap` one after another. -/
def dispatchAll (s : Sys A E) : List (Nat × Nat) → Sys A E
  | [] => s
  | p :: ps => dispatchAll (dispatch s p.1 p.2) ps

/-! ### Branch lemmas for `dispatch` -/

lemma dispatch_fresh (s : Sys A E) (i now : Nat) (d : A)
    (hd : s.cache.data = some d) (hn : now < s.cache.expiresAt) :
    dispatch s i now = setCaller s i (.done (.ok (some d, .fresh))) := by
  simp [dispatch, hd, hn]

lemma dispatch_stale_idle (s : Sys A E) (i now : Nat) (d : A)
    (hd : s.cache.data = some d) (hf : s.cache.expiresAt ≤ now)
    (hs : now < s.cache.staleUntil) (hr : s.cache.isRevalidating = false) :
    dispatch s i now =
      { s with
        cache := { s.cache with isRevalidating := true
                                revalidationPromise := some (s.revalGen + 1) }
        revalGen := s.revalGen + 1
        bgTasks := (s.revalGen + 1) :: s.bgTasks
        callers := s.callers.set i (.done (.ok (some d, .stale))) } := by
  have hf' : ¬ now < s.cache.expiresAt := by omega
  simp [dispatch, hd, hf', hs, hr]

lemma dispatch_stale_busy (s : Sys A E) (i now : Nat) (d : A)
    (hd : s.cache.data = some d) (hf : s.cache.expiresAt ≤ now)
    (hs : now < s.cache.staleUntil) (hr : s.cache.isRevalidating = true) :
    dispatch s i now = setCaller s i (.done (.ok (some d, .stale))) := by
  have hf' : ¬ now < s.cache.expiresAt := by omega
  simp [dispatch, hd, hf', hs, hr]

lemma dispatch_join (s : Sys A E) (i now : Nat) (g : Nat)
    (hmiss : s.cache.data = none ∨ s.cache.staleUntil ≤ now)
    (hinv : s.cache.expiresAt ≤ s.cache.staleUntil)
    (hp : s.cache.revalidationPromise = some g) :
    dispatch s i now = setCaller s i (.joining g) := by
  rcases hmiss with h | h
  · simp [dispatch, h, hp]
  · have hf : ¬ now < s.cache.expiresAt := by omega
    have hs : ¬ now < s.cache.staleUntil := by omega
    simp [dispatch, hf, hs, hp]

lemma dispatch_miss (s : Sys A E) (i now : Nat)
    (hmiss : s.cache.data = none ∨ s.cache.staleUntil ≤ now)
    (hinv : s.cache.expiresAt ≤ s.cache.staleUntil)
    (hp : s.cache.revalidationPromise = none) :
    dispatch s i now = setCaller s i .fetching := by
  rcases hmiss with h | h
  · simp [dispatch, h, hp]
  · have hf : ¬ now < s.cache.expiresAt := by omega
    have hs : ¬ now < s.cache.staleUntil := by omega
    simp [dispatch, hf, hs, hp]

/-! ### C4: fresh hit -/

lemma dispatchAll_fresh :
    ∀ (ps : List (Nat × Nat)) (s : Sys A E),
      s.cache.data.isSome = true →
      (∀ p ∈ ps, p.2 < s.cache.expiresAt) →
      (dispatchAll s ps).cache = s.cache ∧
      (dispatchAll s ps).bgTasks = s.bgTasks ∧
      (dispatchAll s ps).revalGen = s.revalGen ∧
      (dispatchAll s ps).resolved = s.resolved ∧
      (∀ j : Nat, (dispatchAll s ps).callers[j]? = some CallerState.fetching →
        s.callers[j]? = some CallerState.fetching) := by
  intro ps
  induction ps with
  | nil =>
    intro s _ _
    exact ⟨rfl, rfl, rfl, rfl, fun _ h => h⟩
  | cons p ps ih =>
    intro s hd hts
    obtain ⟨d, hd'⟩ := Option.isSome_iff_exists.mp hd
    have hfr := dispatch_fresh s p.1 p.2 d hd' (hts p (List.mem_cons_self p ps))
    have hts' : ∀ q ∈ ps, q.2 <
        (setCaller s p.1 (.done (.ok (some d, .fresh)))).cache.expiresAt := by
      intro q hq
      exact hts q (List.mem_cons_of_mem p hq)
    have ih' := ih (setCaller s p.1 (.done (.ok (some d, .fresh))))
      (by simpa [setCaller] using hd) hts'
    rw [dispatchAll, hfr]
    refine ⟨ih'.1, ih'.2.1, ih'.2.2.1, ih'.2.2.2.1, ?_⟩
    intro j hj
    have hj' := ih'.2.2.2.2 j hj
    by_cases hij : p.1 = j
    · subst hij
      by_cases hlen : p.1 < s.callers.length
      · simp [setCaller, List.getElem?_set_self hlen] at hj'
      · rw [setCaller] at hj'
        simp only at hj'
        rw [List.getElem?_eq_none] at hj'
        · cases hj'
        · simpa using Nat.le_of_not_lt hlen
    · rw [setCaller] at hj'
      simp only at hj'
      rwa [List.getElem?_set_ne hij] at hj'

/-- **C4.** Fresh hit: a `get()` arriving while the value is present and
`now < freshUntil` (`cache.expiresAt`) returns the cached value tagged
`fresh` and changes nothing else — no fetch of any kind starts; consequently,
after `updateCache` ran at time `t`, any sequence of `get()` calls whose
`Date.now()` readings are all `< t + cacheTtlMs` starts no background
revalidation, leaves the cache object untouched, and puts no caller into a
foreground fetch that was not already in one. -/
theorem fetchMarketCap_fresh_hit_no_fetch (cfg : Config) (s : Sys A E) :
    (∀ (d : A) i now, s.cache.data = some d → now < s.cache.expiresAt →
      dispatch s i now = setCaller s i (.done (.ok (some d, .fresh))) ∧
      (dispatch s i now).cache = s.cache ∧
      (dispatch s i now).bgTasks = s.bgTasks ∧
      (dispatch s i now).revalGen = s.revalGen ∧
      (s.callers[i]? = some .ready → Step cfg s (dispatch s i now))) ∧
    (∀ (t : Nat) (a : A) (ps : List (Nat × Nat)),
      s.cache = updateCache cfg t a →
      (∀ p ∈ ps, p.2 < t + cfg.cacheTtlMs) →
      (dispatchAll s ps).cache = s.cache ∧
      (dispatchAll s ps).bgTasks = s.bgTasks ∧
      (dispatchAll s ps).revalGen = s.revalGen ∧
      (∀ j : Nat, (dispatchAll s ps).callers[j]? = some CallerState.fetching →
        s.callers[j]? = some CallerState.fetching)) := by
  constructor
  · intro d i now hd hn
    refine ⟨dispatch_fresh s i now d hd hn, ?_, ?_, ?_, ?_⟩
    · rw [dispatch_fresh s i now d hd hn]; rfl
    · rw [dispatch_fresh s i now d hd hn]; rfl
    · rw [dispatch_fresh s i now d hd hn]; rfl
    · intro hready
      exact Step.dispatch s i now hready
  · intro t a ps hc hts
    have hd : s.cache.data.isSome = true := by rw [hc]; rfl
    have hts' : ∀ p ∈ ps, p.2 < s.cache.expiresAt := by
      intro p hp
      rw [hc]
      exact hts p hp
    have h := dispatchAll_fresh ps s hd hts'
    exact ⟨h.1, h.2.1, h.2.2.1, h.2.2.2.2⟩

/-- Witness for `fetchMarketCap_fresh_hit_no_fetch`: a two-caller system
whose cache was filled at `t = 0` under `mainConfig`; the dispatch at
`now = 10000` returns `(A, fresh)` and two calls at `10000` and `20000`
leave the system fetch-free. -/
theorem fetchMarketCap_fresh_hit_no_fetch_witness :
    (dispatch
        (⟨updateCache mainConfig 0 42, [], [], 0, [.ready, .ready]⟩ : Sys ℕ ℕ)
        0 10000 =
      setCaller ⟨updateCache mainConfig 0 42, [], [], 0, [.ready, .ready]⟩ 0
        (.done (.ok (some 42, .fresh)))) ∧
    (dispatchAll
        (⟨updateCache mainConfig 0 42, [], [], 0, [.ready, .ready]⟩ : Sys ℕ ℕ)
        [(0, 10000), (1, 20000)]).bgTasks = [] := by
  constructor
  · exact ((fetchMarketCap_fresh_hit_no_fetch mainConfig
      (⟨updateCache mainConfig 0 42, [], [], 0, [.ready, .ready]⟩ : Sys ℕ ℕ)).1
      42 0 10000 rfl (by norm_num [updateCache, mainConfig])).1
  · exact ((fetchMarketCap_fresh_hit_no_fetch mainConfig
      (⟨updateCache mainConfig 0 42, [], [], 0, [.ready, .ready]⟩ : Sys ℕ ℕ)).2
      0 42 [(0, 10000), (1, 20000)] rfl
      (by intro p hp; fin_cases hp <;> norm_num [mainConfig])).2.1

/-- `dispatch` never touches the value, the two windows, or the resolved
list: the entry segment of `fetchMarketCap` only answers callers and, at most,
starts one background revalidation. -/
lemma dispatch_data (s : Sys A E) (i now : Nat) :
    (dispatch s i now).cache.data = s.cache.data := by
  unfold dispatch
  dsimp only
  split
  · rfl
  · split
    · split <;> rfl
    · split <;> rfl

lemma dispatch_expiresAt (s : Sys A E) (i now : Nat) :
    (dispatch s i now).cache.expiresAt = s.cache.expiresAt := by
  unfold dispatch
  dsimp only
  split
  · rfl
  · split
    · split <;> rfl
    · split <;> rfl

lemma dispatch_staleUntil (s : Sys A E) (i now : Nat) :
    (dispatch s i now).cache.staleUntil = s.cache.staleUntil := by
  unfold dispatch
  dsimp only
  split
  · rfl
  · split
    · split <;> rfl
    · split <;> rfl

lemma dispatch_resolved (s : Sys A E) (i now : Nat) :
    (dispatch s i now).resolved = s.resolved := by
  unfold dispatch
  dsimp only
  split
  · rfl
  · split
    · split <;> rfl
    · split <;> rfl

lemma dispatch_frame (s : Sys A E) (i now : Nat) :
    (dispatch s i now).cache.data = s.cache.data ∧
    (dispatch s i now).cache.expiresAt = s.cache.expiresAt ∧
    (dispatch s i now).cache.staleUntil = s.cache.staleUntil ∧
    (dispatch s i now).resolved = s.resolved :=
  ⟨dispatch_data s i now, dispatch_expiresAt s i now,
   dispatch_staleUntil s i now, dispatch_resolved s i now⟩

/-! ### C2: miss / fully-expired path -/

/-- **C2.** Miss / fully-expired path: a `get()` arriving when the value is
absent or `now ≥ staleUntil`, with no revalidation in flight
(`cache.revalidationPromise` null), suspends this caller on a foreground
fetch; when that fetch succeeds with `a` at time `t` the result is installed
via `updateCache cfg t a` and the caller finishes with `(a, live)`; when it
fails after retries are exhausted with last error `e`, the caller finishes
with `Except.error e` — the failure (the spec's `FetchFailed(cause)`, carrying
the last underlying error as `cause`) propagates instead of a value, and the
cache is left untouched.  (`hinv` is the `freshUntil ≤ staleUntil` invariant,
which holds in every reachable state.) -/
theorem fetchMarketCap_miss_foreground_fetch (cfg : Config) (s : Sys A E)
    (i now : Nat)
    (hmiss : s.cache.data = none ∨ s.cache.staleUntil ≤ now)
    (hinv : s.cache.expiresAt ≤ s.cache.staleUntil)
    (hp : s.cache.revalidationPromise = none)
    (hready : s.callers[i]? = some .ready) :
    dispatch s i now = setCaller s i .fetching ∧
    Step cfg s (dispatch s i now) ∧
    (∀ t (o : Except E A),
      Step cfg (setCaller s i .fetching) (fgComplete cfg (setCaller s i .fetching) i t o)) ∧
    (∀ (a : A) t,
      (fgComplete cfg (setCaller s i .fetching) i t (.ok a)).cache =
        updateCache cfg t a ∧
      (fgComplete cfg (setCaller s i .fetching) i t (.ok a)).callers[i]? =
        some (.done (.ok (some a, .live)))) ∧
    (∀ (e : E) t,
      (fgComplete cfg (setCaller s i .fetching) i t (.error e)).cache = s.cache ∧
      (fgComplete cfg (setCaller s i .fetching) i t (.error e)).callers[i]? =
        some (.done (.error e))) := by
  have hlen : i < s.callers.length := by
    by_contra hcon
    rw [List.getElem?_eq_none (by simpa using Nat.le_of_not_lt hcon)] at hready
    cases hready
  have hfetch : (setCaller s i .fetching).callers[i]? = some CallerState.fetching := by
    simp [setCaller, List.getElem?_set_self (by simpa using hlen)]
  refine ⟨dispatch_miss s i now hmiss hinv hp, ?_, ?_, ?_, ?_⟩
  · exact Step.dispatch s i now hready
  · intro t o
    exact Step.fgComplete _ i t o hfetch
  · intro a t
    constructor
    · rfl
    · simp [fgComplete, setCaller, List.set_set,
        List.getElem?_set_self (by simpa using hlen)]
  · intro e t
    constructor
    · rfl
    · simp [fgComplete, setCaller, List.set_set,
        List.getElem?_set_self (by simpa using hlen)]

/-- Witness for `fetchMarketCap_miss_foreground_fetch`: one cold-cache caller
dispatching at `now = 0`; success at `t = 5` installs the value and tags it
`live`, failure leaves the cache empty and propagates error `9`. -/
theorem fetchMarketCap_miss_foreground_fetch_witness :
    dispatch (initSys ℕ ℕ 1) 0 0 = setCaller (initSys ℕ ℕ 1) 0 .fetching ∧
    Step mainConfig (initSys ℕ ℕ 1) (dispatch (initSys ℕ ℕ 1) 0 0) ∧
    (∀ t (o : Except ℕ ℕ),
      Step mainConfig (setCaller (initSys ℕ ℕ 1) 0 .fetching)
        (fgComplete mainConfig (setCaller (initSys ℕ ℕ 1) 0 .fetching) 0 t o)) ∧
    (∀ (a : ℕ) t,
      (fgComplete mainConfig (setCaller (initSys ℕ ℕ 1) 0 .fetching) 0 t
        (.ok a)).cache = updateCache mainConfig t a ∧
      (fgComplete mainConfig (setCaller (initSys ℕ ℕ 1) 0 .fetching) 0 t
        (.ok a)).callers[0]? = some (.done (.ok (some a, .live)))) ∧
    (∀ (e : ℕ) t,
      (fgComplete mainConfig (setCaller (initSys ℕ ℕ 1) 0 .fetching) 0 t
        (.error e)).cache = (initSys ℕ ℕ 1).cache ∧
      (fgComplete mainConfig (setCaller (initSys ℕ ℕ 1) 0 .fetching) 0 t
        (.error e)).callers[0]? = some (.done (.error e))) :=
  fetchMarketCap_miss_foreground_fetch mainConfig (initSys ℕ ℕ 1) 0 0
    (Or.inl rfl) (Nat.le_refl 0) rfl rfl

/-! ### C6: background failure absorption -/

/-- **C6.** Background-failure absorption: when an in-flight background
revalidation fails, the step only logs — the cached value and both windows
are unchanged and no caller's state changes, so no caller of `get()` ever
observes the failure; moreover, across *every* step of the system, whenever
the `data` field changes, the new cache is `updateCache` applied to a
successfully fetched value — a failed fetch never clears or alters `value`. -/
theorem background_failure_absorbed (cfg : Config) :
    (∀ (s : Sys A E) (g t : Nat) (e : E),
      (bgComplete cfg s g t (.error e)).cache.data = s.cache.data ∧
      (bgComplete cfg s g t (.error e)).cache.expiresAt = s.cache.expiresAt ∧
      (bgComplete cfg s g t (.error e)).cache.staleUntil = s.cache.staleUntil ∧
      (bgComplete cfg s g t (.error e)).callers = s.callers) ∧
    (∀ (s s' : Sys A E), Step cfg s s' → s'.cache.data ≠ s.cache.data →
      ∃ (t : Nat) (a : A), s'.cache = updateCache cfg t a) := by
  constructor
  · intro s g t e
    exact ⟨rfl, rfl, rfl, rfl⟩
  · intro s s' hstep hne
    cases hstep with
    | dispatch i now hready =>
      exact absurd (dispatch_frame s i now).1 hne
    | bgComplete g now outcome hg =>
      cases outcome with
      | ok a =>
        exact ⟨now, a, rfl⟩
      | error e =>
        exact absurd rfl hne
    | fgComplete i now outcome hfetch =>
      cases outcome with
      | ok a =>
        exact ⟨now, a, rfl⟩
      | error e =>
        exact absurd rfl hne
    | joinResume i g hj hg =>
      exact absurd rfl hne

/-- Witness for `background_failure_absorbed`: a concrete stale cache with an
in-flight revalidation whose failure at `t = 40000` changes neither the
value `42` nor the windows nor the single already-answered caller. -/
theorem background_failure_absorbed_witness :
    ((bgComplete mainConfig
        (⟨⟨some 42, 30000, 90000, true, some 1⟩, [1], [], 1,
          [.done (.ok (some 42, .stale))]⟩ : Sys ℕ ℕ) 1 40000
        (.error 7)).cache.data =
      (⟨⟨some 42, 30000, 90000, true, some 1⟩, [1], [], 1,
        [.done (.ok (some 42, .stale))]⟩ : Sys ℕ ℕ).cache.data ∧
     (bgComplete mainConfig
        (⟨⟨some 42, 30000, 90000, true, some 1⟩, [1], [], 1,
          [.done (.ok (some 42, .stale))]⟩ : Sys ℕ ℕ) 1 40000
        (.error 7)).cache.expiresAt = 30000 ∧
     (bgComplete mainConfig
        (⟨⟨some 42, 30000, 90000, true, some 1⟩, [1], [], 1,
          [.done (.ok (some 42, .stale))]⟩ : Sys ℕ ℕ) 1 40000
        (.error 7)).cache.staleUntil = 90000 ∧
     (bgComplete mainConfig
        (⟨⟨some 42, 30000, 90000, true, some 1⟩, [1], [], 1,
          [.done (.ok (some 42, .stale))]⟩ : Sys ℕ ℕ) 1 40000
        (.error 7)).callers = [.done (.ok (some 42, .stale))]) :=
  (background_failure_absorbed mainConfig).1
    (⟨⟨some 42, 30000, 90000, true, some 1⟩, [1], [], 1,
      [.done (.ok (some 42, .stale))]⟩ : Sys ℕ ℕ) 1 40000 7

/-! ### C5: `updateCache` postcondition, mutation discipline, window invariant -/

/-- Counterexample to "updateCache is the only mutator of the CacheEntry": in
a reachable state (cold start, one caller's foreground fetch succeeded at
`t = 0` with value `42`, a second caller arrives at `now = 30000`, inside the
stale window), the stale-path dispatch step mutates the cache object — it
sets `cache.isRevalidating` and `cache.revalidationPromise` (lines 100-102) —
yet the resulting cache is not `updateCache` applied to anything: `updateCache`
always leaves `isRevalidating = false`, while this step sets it `true`. -/
theorem updateCache_not_only_mutator_cex :
    Steps mainConfig (initSys ℕ ℕ 2)
      (⟨⟨some 42, 30000, 90000, false, none⟩, [], [], 0,
        [.done (.ok (some 42, .live)), .ready]⟩ : Sys ℕ ℕ) ∧
    Step mainConfig
      (⟨⟨some 42, 30000, 90000, false, none⟩, [], [], 0,
        [.done (.ok (some 42, .live)), .ready]⟩ : Sys ℕ ℕ)
      (dispatch
        (⟨⟨some 42, 30000, 90000, false, none⟩, [], [], 0,
          [.done (.ok (some 42, .live)), .ready]⟩ : Sys ℕ ℕ) 1 30000) ∧
    (dispatch
        (⟨⟨some 42, 30000, 90000, false, none⟩, [], [], 0,
          [.done (.ok (some 42, .live)), .ready]⟩ : Sys ℕ ℕ) 1 30000).cache ≠
      (⟨⟨some 42, 30000, 90000, false, none⟩, [], [], 0,
        [.done (.ok (some 42, .live)), .ready]⟩ : Sys ℕ ℕ).cache ∧
    ∀ (t a : ℕ),
      (dispatch
        (⟨⟨some 42, 30000, 90000, false, none⟩, [], [], 0,
          [.done (.ok (some 42, .live)), .ready]⟩ : Sys ℕ ℕ) 1 30000).cache ≠
        updateCache mainConfig t a := by
  refine ⟨?_, ?_, ?_, ?_⟩
  · have h1 : Step mainConfig (initSys ℕ ℕ 2) (dispatch (initSys ℕ ℕ 2) 0 0) :=
      Step.dispatch _ 0 0 rfl
    have e1 : dispatch (initSys ℕ ℕ 2) 0 0 =
        (⟨⟨none, 0, 0, false, none⟩, [], [], 0, [.fetching, .ready]⟩ : Sys ℕ ℕ) := by
      decide
    have h2 : Step mainConfig
        (⟨⟨none, 0, 0, false, none⟩, [], [], 0, [.fetching, .ready]⟩ : Sys ℕ ℕ)
        (fgComplete mainConfig
          (⟨⟨none, 0, 0, false, none⟩, [], [], 0, [.fetching, .ready]⟩ : Sys ℕ ℕ)
          0 0 (.ok 42)) :=
      Step.fgComplete _ 0 0 (.ok 42) rfl
    have e2 : fgComplete mainConfig
        (⟨⟨none, 0, 0, false, none⟩, [], [], 0, [.fetching, .ready]⟩ : Sys ℕ ℕ)
        0 0 (.ok 42) =
        (⟨⟨some 42, 30000, 90000, false, none⟩, [], [], 0,
          [.done (.ok (some 42, .live)), .ready]⟩ : Sys ℕ ℕ) := by
      decide
    exact Steps.tail (Steps.tail (Steps.refl _) (e1 ▸ h1)) (e2 ▸ h2)
  · exact Step.dispatch _ 1 30000 rfl
  · decide
  · intro t a
    intro hc
    have h1 : (dispatch
        (⟨⟨some 42, 30000, 90000, false, none⟩, [], [], 0,
          [.done (.ok (some 42, .live)), .ready]⟩ : Sys ℕ ℕ) 1 30000).cache.isRevalidating =
        true := by decide
    rw [hc] at h1
    simp [updateCache] at h1

/-- **C5 (amended).** `updateCache` postcondition and atomicity: each
invocation sets `data`, `expiresAt = now + cacheTtlMs`,
`staleUntil = (now + cacheTtlMs) + staleWhileRevalidateMs` and clears the
revalidation flag and handle, all in one atomic step; across every step of
the system, whenever `data`, `expiresAt` or `staleUntil` changes at all, the
whole cache is `updateCache cfg t a` for some `t, a` — so no caller ever
observes `value` replaced while the windows are not (the revalidation
flag/handle, however, are also mutated by the stale-path dispatch and by
background completion, which is what the original claim missed); and
`freshUntil ≤ staleUntil` holds in every reachable state. -/
theorem updateCache_postcondition_invariant (cfg : Config) :
    (∀ (now : Nat) (d : A),
      (updateCache cfg now d).data = some d ∧
      (updateCache cfg now d).expiresAt = now + cfg.cacheTtlMs ∧
      (updateCache cfg now d).staleUntil =
        (now + cfg.cacheTtlMs) + cfg.staleWhileRevalidateMs ∧
      (updateCache cfg now d).isRevalidating = false ∧
      (updateCache cfg now d).revalidationPromise = none ∧
      (updateCache cfg now d).expiresAt ≤ (updateCache cfg now d).staleUntil) ∧
    (∀ (s s' : Sys A E), Step cfg s s' →
      (s'.cache.data ≠ s.cache.data ∨ s'.cache.expiresAt ≠ s.cache.expiresAt ∨
        s'.cache.staleUntil ≠ s.cache.staleUntil) →
      ∃ (t : Nat) (a : A), s'.cache = updateCache cfg t a) ∧
    (∀ (n : Nat) (s : Sys A E), Steps cfg (initSys A E n) s →
      s.cache.expiresAt ≤ s.cache.staleUntil) := by
  refine ⟨?_, ?_, ?_⟩
  · intro now d
    exact ⟨rfl, rfl, rfl, rfl, rfl, Nat.le_add_right _ _⟩
  · intro s s' hstep hne
    cases hstep with
    | dispatch i now hready =>
      exfalso
      rcases hne with h | h | h
      · exact h (dispatch_data s i now)
      · exact h (dispatch_expiresAt s i now)
      · exact h (dispatch_staleUntil s i now)
    | bgComplete g now outcome hg =>
      cases outcome with
      | ok a => exact ⟨now, a, rfl⟩
      | error e =>
        exfalso
        rcases hne with h | h | h <;> exact h rfl
    | fgComplete i now outcome hfetch =>
      cases outcome with
      | ok a => exact ⟨now, a, rfl⟩
      | error e =>
        exfalso
        rcases hne with h | h | h <;> exact h rfl
    | joinResume i g hj hg =>
      exfalso
      rcases hne with h | h | h <;> exact h rfl
  · intro n s h
    induction h with
    | refl => exact Nat.le_refl 0
    | tail hs hstep ih =>
      cases hstep with
      | dispatch i now hready =>
        rw [dispatch_expiresAt, dispatch_staleUntil]
        exact ih
      | bgComplete g now outcome hg =>
        cases outcome with
        | ok a => exact Nat.le_add_right _ _
        | error e => exact ih
      | fgComplete i now outcome hfetch =>
        cases outcome with
        | ok a => exact Nat.le_add_right _ _
        | error e => exact ih
      | joinResume i g hj hg => exact ih

/-- Witness for `updateCache_postcondition_invariant`: the concrete update at
`now = 0` with value `42` under `mainConfig`, and the invariant at the
(trivially reachable) initial state. -/
theorem updateCache_postcondition_invariant_witness :
    ((updateCache mainConfig 0 (42 : ℕ)).data = some 42 ∧
      (updateCache mainConfig 0 (42 : ℕ)).expiresAt = 0 + mainConfig.cacheTtlMs ∧
      (updateCache mainConfig 0 (42 : ℕ)).staleUntil =
        (0 + mainConfig.cacheTtlMs) + mainConfig.staleWhileRevalidateMs ∧
      (updateCache mainConfig 0 (42 : ℕ)).isRevalidating = false ∧
      (updateCache mainConfig 0 (42 : ℕ)).revalidationPromise = none ∧
      (updateCache mainConfig 0 (42 : ℕ)).expiresAt ≤
        (updateCache mainConfig 0 (42 : ℕ)).staleUntil) ∧
    (initSys ℕ ℕ 1).cache.expiresAt ≤ (initSys ℕ ℕ 1).cache.staleUntil :=
  ⟨(updateCache_postcondition_invariant (A := ℕ) (E := ℕ) mainConfig).1 0 42,
   (updateCache_postcondition_invariant (A := ℕ) (E := ℕ) mainConfig).2.2 1
     (initSys ℕ ℕ 1) (Steps.refl _)⟩

/-! ### C1: single-flight -/

lemma steps_head {cfg : Config} {s t u : Sys A E}
    (h1 : Step cfg s t) (h2 : Steps cfg t u) : Steps cfg s u := by
  induction h2 with
  | refl => exact Steps.tail (Steps.refl s) h1
  | tail hs hstep ih => exact Steps.tail ih hstep

/-- Counterexample to the single-flight guarantee: from a cold start with two
callers, both dispatch at `now = 0` on the empty cache; the miss path of
`fetchMarketCap` (line 125) has no guard, so each starts its own foreground
`fetchFromZora()` and the reachable state has two fetches in flight. -/
theorem single_flight_cex :
    Steps mainConfig (initSys ℕ ℕ 2)
      (⟨⟨none, 0, 0, false, none⟩, [], [], 0,
        [.fetching, .fetching]⟩ : Sys ℕ ℕ) ∧
    fetchesInFlight
      (⟨⟨none, 0, 0, false, none⟩, [], [], 0,
        [.fetching, .fetching]⟩ : Sys ℕ ℕ) = 2 := by
  constructor
  · have h1 : Step mainConfig (initSys ℕ ℕ 2) (dispatch (initSys ℕ ℕ 2) 0 0) :=
      Step.dispatch _ 0 0 rfl
    have e1 : dispatch (initSys ℕ ℕ 2) 0 0 =
        (⟨⟨none, 0, 0, false, none⟩, [], [], 0,
          [.fetching, .ready]⟩ : Sys ℕ ℕ) := by decide
    have h2 : Step mainConfig
        (⟨⟨none, 0, 0, false, none⟩, [], [], 0, [.fetching, .ready]⟩ : Sys ℕ ℕ)
        (dispatch
          (⟨⟨none, 0, 0, false, none⟩, [], [], 0, [.fetching, .ready]⟩ : Sys ℕ ℕ)
          1 0) :=
      Step.dispatch _ 1 0 rfl
    have e2 : dispatch
        (⟨⟨none, 0, 0, false, none⟩, [], [], 0, [.fetching, .ready]⟩ : Sys ℕ ℕ)
        1 0 =
        (⟨⟨none, 0, 0, false, none⟩, [], [], 0, [.fetching, .fetching]⟩ : Sys ℕ ℕ) := by
      decide
    exact Steps.tail (Steps.tail (Steps.refl _) (e1 ▸ h1)) (e2 ▸ h2)
  · decide

/-- All-at-once dispatch of stale-window callers while a revalidation is
already marked in flight: each of them is answered `(d, stale)` immediately
and nothing else changes — in particular no further background fetch starts. -/
lemma dispatchAll_stale_busy (cfg : Config) (d : A) :
    ∀ (ps : List (Nat × Nat)) (s : Sys A E),
      s.cache.data = some d →
      s.cache.isRevalidating = true →
      (∀ p ∈ ps, s.cache.expiresAt ≤ p.2 ∧ p.2 < s.cache.staleUntil) →
      (∀ p ∈ ps, s.callers[p.1]? = some .ready) →
      List.Pairwise (fun a b => a ≠ b) (ps.map Prod.fst) →
      Steps cfg s (dispatchAll s ps) ∧
      (dispatchAll s ps).cache = s.cache ∧
      (dispatchAll s ps).bgTasks = s.bgTasks ∧
      (dispatchAll s ps).revalGen = s.revalGen ∧
      (dispatchAll s ps).resolved = s.resolved ∧
      (∀ p ∈ ps, (dispatchAll s ps).callers[p.1]? =
        some (.done (.ok (some d, .stale)))) ∧
      (∀ j : Nat, (∀ p ∈ ps, p.1 ≠ j) →
        (dispatchAll s ps).callers[j]? = s.callers[j]?) := by
  intro ps
  induction ps with
  | nil =>
    intro s _ _ _ _ _
    exact ⟨Steps.refl s, rfl, rfl, rfl, rfl, by simp, fun _ _ => rfl⟩
  | cons p ps ih =>
    intro s hd hr hw hready hdist
    have hwp := hw p (List.mem_cons_self p ps)
    have hrp := hready p (List.mem_cons_self p ps)
    have hlen : p.1 < s.callers.length := by
      by_contra hcon
      rw [List.getElem?_eq_none (by simpa using Nat.le_of_not_lt hcon)] at hrp
      cases hrp
    have hstale := dispatch_stale_busy s p.1 p.2 d hd hwp.1 hwp.2 hr
    have hdist1 : ∀ q ∈ ps, p.1 ≠ q.1 := by
      intro q hq
      exact (List.pairwise_cons.mp hdist).1 q.1 (List.mem_map_of_mem Prod.fst hq)
    have hds : dispatchAll s (p :: ps) =
        dispatchAll (setCaller s p.1 (.done (.ok (some d, .stale)))) ps := by
      rw [dispatchAll, hstale]
    have hready' : ∀ q ∈ ps,
        (setCaller s p.1 (.done (.ok (some d, .stale)))).callers[q.1]? =
          some CallerState.ready := by
      intro q hq
      rw [setCaller]
      simp only
      rw [List.getElem?_set_ne (hdist1 q hq)]
      exact hready q (List.mem_cons_of_mem p hq)
    have ih' := ih (setCaller s p.1 (.done (.ok (some d, .stale))))
      hd hr (fun q hq => hw q (List.mem_cons_of_mem p hq)) hready'
      (List.pairwise_cons.mp hdist).2
    rw [hds]
    refine ⟨?_, ih'.2.1, ih'.2.2.1, ih'.2.2.2.1, ih'.2.2.2.2.1, ?_, ?_⟩
    · refine steps_head ?_ ih'.1
      have h1 : Step cfg s (dispatch s p.1 p.2) := Step.dispatch s p.1 p.2 hrp
      rwa [hstale] at h1
    · intro q hq
      rcases List.mem_cons.mp hq with hq1 | hq2
      · subst hq1
        rw [ih'.2.2.2.2.2.2 q.1 (fun r hr' => (hdist1 r hr').symm ∘ Eq.symm ∘ Eq.symm)]
        · rw [setCaller]
          simp only
          exact List.getElem?_set_self (by simpa using hlen)
      · exact ih'.2.2.2.2.2.1 q hq2
    · intro j hj
      rw [ih'.2.2.2.2.2.2 j (fun q hq => hj q (List.mem_cons_of_mem p hq))]
      rw [setCaller]
      simp only
      rw [List.getElem?_set_ne (hj p (List.mem_cons_self p ps))]

/-- **C1 (amended).** Stale-window single flight: when `N ≥ 1` concurrent
callers dispatch while the value is present, every `Date.now()` reading lies
in `[expiresAt, staleUntil)` and no revalidation is marked in flight, exactly
one background fetch is started (one new generation is added to the in-flight
set and the generation counter increments once), and every one of the callers
is answered immediately with the previously cached value tagged `stale`.
(The original claim's global "at most one fetch in flight at any instant" is
false on this code: the miss path starts an unguarded foreground fetch per
caller, so two cold-cache callers produce two concurrent fetches.) -/
theorem fetchMarketCap_stale_window_single_flight (cfg : Config) (s : Sys A E)
    (d : A) (p0 : Nat × Nat) (ps : List (Nat × Nat))
    (hd : s.cache.data = some d)
    (hr : s.cache.isRevalidating = false)
    (hw : ∀ p ∈ p0 :: ps, s.cache.expiresAt ≤ p.2 ∧ p.2 < s.cache.staleUntil)
    (hready : ∀ p ∈ p0 :: ps, s.callers[p.1]? = some .ready)
    (hdist : List.Pairwise (fun a b => a ≠ b) ((p0 :: ps).map Prod.fst)) :
    Steps cfg s (dispatchAll s (p0 :: ps)) ∧
    (dispatchAll s (p0 :: ps)).bgTasks = (s.revalGen + 1) :: s.bgTasks ∧
    (dispatchAll s (p0 :: ps)).revalGen = s.revalGen + 1 ∧
    (dispatchAll s (p0 :: ps)).cache.data = some d ∧
    (dispatchAll s (p0 :: ps)).cache.expiresAt = s.cache.expiresAt ∧
    (dispatchAll s (p0 :: ps)).cache.staleUntil = s.cache.staleUntil ∧
    (dispatchAll s (p0 :: ps)).cache.isRevalidating = true ∧
    (∀ p ∈ p0 :: ps, (dispatchAll s (p0 :: ps)).callers[p.1]? =
      some (.done (.ok (some d, .stale)))) := by
  have hwp := hw p0 (List.mem_cons_self p0 ps)
  have hrp := hready p0 (List.mem_cons_self p0 ps)
  have hlen : p0.1 < s.callers.length := by
    by_contra hcon
    rw [List.getElem?_eq_none (by simpa using Nat.le_of_not_lt hcon)] at hrp
    cases hrp
  have hidle := dispatch_stale_idle s p0.1 p0.2 d hd hwp.1 hwp.2 hr
  have hdist1 : ∀ q ∈ ps, p0.1 ≠ q.1 := by
    intro q hq
    exact (List.pairwise_cons.mp hdist).1 q.1 (List.mem_map_of_mem Prod.fst hq)
  set s1 : Sys A E :=
    { s with
      cache := { s.cache with isRevalidating := true
                              revalidationPromise := some (s.revalGen + 1) }
      revalGen := s.revalGen + 1
      bgTasks := (s.revalGen + 1) :: s.bgTasks
      callers := s.callers.set p0.1 (.done (.ok (some d, .stale))) } with hs1
  have hds : dispatchAll s (p0 :: ps) = dispatchAll s1 ps := by
    rw [dispatchAll, hidle]
  have hready' : ∀ q ∈ ps, s1.callers[q.1]? = some CallerState.ready := by
    intro q hq
    rw [hs1]
    simp only
    rw [List.getElem?_set_ne (hdist1 q hq)]
    exact hready q (List.mem_cons_of_mem p0 hq)
  have hw' : ∀ q ∈ ps, s1.cache.expiresAt ≤ q.2 ∧ q.2 < s1.cache.staleUntil :=
    fun q hq => hw q (List.mem_cons_of_mem p0 hq)
  have ih := dispatchAll_stale_busy cfg d ps s1 hd rfl hw' hready'
    (List.pairwise_cons.mp hdist).2
  rw [hds]
  refine ⟨?_, ?_, ?_, ?_, ?_, ?_, ?_, ?_⟩
  · refine steps_head ?_ ih.1
    have h1 : Step cfg s (dispatch s p0.1 p0.2) := Step.dispatch s p0.1 p0.2 hrp
    rwa [hidle] at h1
  · rw [ih.2.2.1]
  · rw [ih.2.2.2.1]
  · rw [ih.2.1]
    exact hd
  · rw [ih.2.1]
  · rw [ih.2.1]
  · rw [ih.2.1]
  · intro p hp
    rcases List.mem_cons.mp hp with hp1 | hp2
    · subst hp1
      rw [ih.2.2.2.2.2.2 p.1 (fun r hr' => Ne.symm (hdist1 r hr'))]
      rw [hs1]
      simp only
      exact List.getElem?_set_self (by simpa using hlen)
    · exact ih.2.2.2.2.2.1 p hp2

/-- Witness for `fetchMarketCap_stale_window_single_flight`: two concurrent
callers hit a cache filled at `t = 0` (value `7`, fresh until `30000`, stale
until `90000`) at `now = 40000` and `now = 50000`; exactly one background
generation starts and both are answered `(7, stale)`. -/
theorem fetchMarketCap_stale_window_single_flight_witness :
    Steps mainConfig
      (⟨⟨some 7, 30000, 90000, false, none⟩, [], [], 0,
        [.ready, .ready]⟩ : Sys ℕ ℕ)
      (dispatchAll
        (⟨⟨some 7, 30000, 90000, false, none⟩, [], [], 0,
          [.ready, .ready]⟩ : Sys ℕ ℕ) [(0, 40000), (1, 50000)]) ∧
    (dispatchAll
        (⟨⟨some 7, 30000, 90000, false, none⟩, [], [], 0,
          [.ready, .ready]⟩ : Sys ℕ ℕ) [(0, 40000), (1, 50000)]).bgTasks = [1] ∧
    (dispatchAll
        (⟨⟨some 7, 30000, 90000, false, none⟩, [], [], 0,
          [.ready, .ready]⟩ : Sys ℕ ℕ) [(0, 40000), (1, 50000)]).revalGen = 1 ∧
    (∀ p ∈ [((0 : ℕ), (40000 : ℕ)), (1, 50000)],
      (dispatchAll
        (⟨⟨some 7, 30000, 90000, false, none⟩, [], [], 0,
          [.ready, .ready]⟩ : Sys ℕ ℕ) [(0, 40000), (1, 50000)]).callers[p.1]? =
        some (.done (.ok (some 7, .stale)))) := by
  have h := fetchMarketCap_stale_window_single_flight mainConfig
    (⟨⟨some 7, 30000, 90000, false, none⟩, [], [], 0,
      [.ready, .ready]⟩ : Sys ℕ ℕ) 7 (0, 40000) [(1, 50000)]
    rfl rfl
    (by intro p hp; fin_cases hp <;> exact ⟨by norm_num, by norm_num⟩)
    (by intro p hp; fin_cases hp <;> rfl)
    (by simp)
  exact ⟨h.1, h.2.1, h.2.2.1, by
    intro p hp
    fin_cases hp
    · exact h.2.2.2.2.2.2.2 (0, 40000) (List.mem_cons_self _ _)
    · exact h.2.2.2.2.2.2.2 (1, 50000)
        (List.mem_cons_of_mem _ (List.mem_cons_self _ _))⟩

/-! ### C7: revalidation join -/

/-- **C7.** Revalidation join: a `get()` arriving when the revalidation
handle is present and neither the fresh- nor the stale-hit case applies
(value absent or fully expired) suspends on the shared revalidation future of
generation `g`; when that background fetch completes successfully with `b`,
the value `b` is installed, the awaited generation resolves, and the caller
resumes to return the now-updated value `b` tagged `revalidated`.  (`hinv` is
the `freshUntil ≤ staleUntil` window invariant, which holds in every
reachable state; `hg` says the background fetch of generation `g` is still
in flight.) -/
theorem revalidation_join (cfg : Config) (s : Sys A E) (i now g : Nat) (b : A)
    (t : Nat)
    (hmiss : s.cache.data = none ∨ s.cache.staleUntil ≤ now)
    (hinv : s.cache.expiresAt ≤ s.cache.staleUntil)
    (hp : s.cache.revalidationPromise = some g)
    (hg : g ∈ s.bgTasks)
    (hready : s.callers[i]? = some .ready) :
    dispatch s i now = setCaller s i (.joining g) ∧
    Step cfg s (dispatch s i now) ∧
    Step cfg (setCaller s i (.joining g))
      (bgComplete cfg (setCaller s i (.joining g)) g t (.ok b)) ∧
    (bgComplete cfg (setCaller s i (.joining g)) g t (.ok b)).cache.data =
      some b ∧
    g ∈ (bgComplete cfg (setCaller s i (.joining g)) g t (.ok b)).resolved ∧
    Step cfg (bgComplete cfg (setCaller s i (.joining g)) g t (.ok b))
      (joinResume (bgComplete cfg (setCaller s i (.joining g)) g t (.ok b)) i) ∧
    (joinResume (bgComplete cfg (setCaller s i (.joining g)) g t (.ok b))
        i).callers[i]? = some (.done (.ok (some b, .revalidated))) := by
  have hlen : i < s.callers.length := by
    by_contra hcon
    rw [List.getElem?_eq_none (by simpa using Nat.le_of_not_lt hcon)] at hready
    cases hready
  have hjoin : (setCaller s i (.joining g)).callers[i]? =
      some (CallerState.joining g) := by
    rw [setCaller]
    simp only
    exact List.getElem?_set_self (by simpa using hlen)
  have hjoin2 : (bgComplete cfg (setCaller s i (.joining g)) g t
      (.ok b)).callers[i]? = some (CallerState.joining g) := hjoin
  have hres : g ∈ (bgComplete cfg (setCaller s i (.joining g)) g t
      (.ok b)).resolved := List.mem_cons_self g _
  refine ⟨dispatch_join s i now g hmiss hinv hp, ?_, ?_, rfl, hres, ?_, ?_⟩
  · exact Step.dispatch s i now hready
  · exact Step.bgComplete _ g t (.ok b) hg
  · exact Step.joinResume _ i g hjoin2 hres
  · have hlen2 : i < (bgComplete cfg (setCaller s i (.joining g)) g t
        (.ok b)).callers.length := by
      show i < (s.callers.set i (.joining g)).length
      simpa using hlen
    rw [joinResume, setCaller]
    simp only
    exact List.getElem?_set_self hlen2

/-- Witness for `revalidation_join`: one caller arrives at `now = 95000` on a
fully expired entry (`staleUntil = 90000`) while the background fetch of
generation `1` is in flight; that fetch succeeds with `9` at `t = 95001` and
the caller returns `(9, revalidated)`. -/
theorem revalidation_join_witness :
    dispatch
      (⟨⟨some 5, 30000, 90000, true, some 1⟩, [1], [], 1, [.ready]⟩ : Sys ℕ ℕ)
      0 95000 =
      setCaller
        (⟨⟨some 5, 30000, 90000, true, some 1⟩, [1], [], 1, [.ready]⟩ : Sys ℕ ℕ)
        0 (.joining 1) ∧
    Step mainConfig
      (⟨⟨some 5, 30000, 90000, true, some 1⟩, [1], [], 1, [.ready]⟩ : Sys ℕ ℕ)
      (dispatch
        (⟨⟨some 5, 30000, 90000, true, some 1⟩, [1], [], 1, [.ready]⟩ : Sys ℕ ℕ)
        0 95000) ∧
    Step mainConfig
      (setCaller
        (⟨⟨some 5, 30000, 90000, true, some 1⟩, [1], [], 1, [.ready]⟩ : Sys ℕ ℕ)
        0 (.joining 1))
      (bgComplete mainConfig
        (setCaller
          (⟨⟨some 5, 30000, 90000, true, some 1⟩, [1], [], 1, [.ready]⟩ : Sys ℕ ℕ)
          0 (.joining 1)) 1 95001 (.ok 9)) ∧
    (bgComplete mainConfig
      (setCaller
        (⟨⟨some 5, 30000, 90000, true, some 1⟩, [1], [], 1, [.ready]⟩ : Sys ℕ ℕ)
        0 (.joining 1)) 1 95001 (.ok 9)).cache.data = some 9 ∧
    1 ∈ (bgComplete mainConfig
      (setCaller
        (⟨⟨some 5, 30000, 90000, true, some 1⟩, [1], [], 1, [.ready]⟩ : Sys ℕ ℕ)
        0 (.joining 1)) 1 95001 (.ok 9)).resolved ∧
    Step mainConfig
      (bgComplete mainConfig
        (setCaller
          (⟨⟨some 5, 30000, 90000, true, some 1⟩, [1], [], 1, [.ready]⟩ : Sys ℕ ℕ)
          0 (.joining 1)) 1 95001 (.ok 9))
      (joinResume
        (bgComplete mainConfig
          (setCaller
            (⟨⟨some 5, 30000, 90000, true, some 1⟩, [1], [], 1,
              [.ready]⟩ : Sys ℕ ℕ)
            0 (.joining 1)) 1 95001 (.ok 9)) 0) ∧
    (joinResume
      (bgComplete mainConfig
        (setCaller
          (⟨⟨some 5, 30000, 90000, true, some 1⟩, [1], [], 1, [.ready]⟩ : Sys ℕ ℕ)
          0 (.joining 1)) 1 95001 (.ok 9)) 0).callers[0]? =
      some (.done (.ok (some 9, .revalidated))) :=
  revalidation_join mainConfig
    (⟨⟨some 5, 30000, 90000, true, some 1⟩, [1], [], 1, [.ready]⟩ : Sys ℕ ℕ)
    0 95000 1 9 95001 (Or.inr (by norm_num)) (by norm_num) rfl
    (List.mem_cons_self 1 []) rfl

/-! ## CORS helper `allowCors` (src/api/get-propaganda.js lines 43-50,
src/unnamed/part_001 lines 23-30)

```js
const origin = req.headers.origin;
const allowed = ALLOWED_ORIGINS.includes(origin) ? origin : ALLOWED_ORIGINS[0];
res.setHeader("Access-Control-Allow-Origin", allowed);
```

`req.headers.origin` may be absent (`undefined`), in which case
`includes(undefined)` is `false` and the fallback `ALLOWED_ORIGINS[0]` is
used; an `Option String` result models the header value
(`ALLOWED_ORIGINS[0]` is `undefined` only for an empty list). -/

/-- `ALLOWED_ORIGINS` of `src/api/get-propaganda.js` (lines 11-16). -/
def ALLOWED_ORIGINS : List String :=
  ["https://app-landing-page-da9939-9d27738bf8d68dc.webflow.io",
   "https://app.zora.co",
   "https://app-landing-page-da9939.webflow.io"]

/-- `ALLOWED_ORIGINS` of `src/unnamed/part_001` (lines 3-6). -/
def ALLOWED_ORIGINS_part001 : List String :=
  ["https://propaganda-747205.webflow.io",
   "https://www.propaganda.now"]

/-- The value `allowCors` writes into `Access-Control-Allow-Origin`. -/
def allowCorsOrigin (origins : List String) (origin : Option String) :
    Option String :=
  match origin with
  | some o => if o ∈ origins then some o else origins.head?
  | none => origins.head?

/-- **C10.** `allowCors` echoes the request's `Origin` exactly when it is a
member of `ALLOWED_ORIGINS`, and falls back to `ALLOWED_ORIGINS[0]`
otherwise (also when the header is absent); consequently every value it ever
writes is a member of the list, and an origin outside the list is never
echoed back. -/
theorem allowCors_origin_membership (origins : List String)
    (origin : Option String) :
    (∀ o, origin = some o → o ∈ origins → allowCorsOrigin origins origin = some o) ∧
    (∀ o, origin = some o → o ∉ origins →
      allowCorsOrigin origins origin = origins.head?) ∧
    (origin = none → allowCorsOrigin origins origin = origins.head?) ∧
    (∀ v, allowCorsOrigin origins origin = some v → v ∈ origins) ∧
    (∀ o, origin = some o → o ∉ origins → allowCorsOrigin origins origin ≠ some o) := by
  refine ⟨?_, ?_, ?_, ?_, ?_⟩
  · intro o ho hmem
    subst ho
    simp [allowCorsOrigin, hmem]
  · intro o ho hmem
    subst ho
    simp [allowCorsOrigin, hmem]
  · intro ho
    subst ho
    rfl
  · intro v hv
    rcases origin with _ | o
    · exact List.mem_of_mem_head? (show origins.head? = some v from hv)
    · by_cases hmem : o ∈ origins
      · simp [allowCorsOrigin, hmem] at hv
        rwa [← hv]
      · simp only [allowCorsOrigin, if_neg hmem] at hv
        exact List.mem_of_mem_head? hv
  · intro o ho hmem hcon
    rw [ho] at hcon
    simp only [allowCorsOrigin, if_neg hmem] at hcon
    exact hmem (List.mem_of_mem_head? hcon)

/-- Witness for `allowCors_origin_membership`: `https://app.zora.co` is
echoed back, while `https://evil.example` gets the first allowed origin of
`src/api/get-propaganda.js` and is itself never echoed. -/
theorem allowCors_origin_membership_witness :
    allowCorsOrigin ALLOWED_ORIGINS (some "https://app.zora.co") =
      some "https://app.zora.co" ∧
    allowCorsOrigin ALLOWED_ORIGINS (some "https://evil.example") =
      ALLOWED_ORIGINS.head? ∧
    allowCorsOrigin ALLOWED_ORIGINS_part001 none =
      ALLOWED_ORIGINS_part001.head? ∧
    allowCorsOrigin ALLOWED_ORIGINS (some "https://evil.example") ≠
      some "https://evil.example" := by
  refine ⟨?_, ?_, ?_, ?_⟩
  · exact (allowCors_origin_membership ALLOWED_ORIGINS
      (some "https://app.zora.co")).1 "https://app.zora.co" rfl (by decide)
  · exact (allowCors_origin_membership ALLOWED_ORIGINS
      (some "https://evil.example")).2.1 "https://evil.example" rfl (by decide)
  · exact (allowCors_origin_membership ALLOWED_ORIGINS_part001 none).2.2.1 rfl
  · exact (allowCors_origin_membership ALLOWED_ORIGINS
      (some "https://evil.example")).2.2.2.2 "https://evil.example" rfl (by decide)

/-! ## HTTP handler response shaping (src/api/get-propaganda.js lines
171-234, src/unnamed/part_001 lines 145-205)

The handler answers OPTIONS/HEAD with 204, non-GET with 405, a missing
`ZORA_API_KEY` with a 500 `"Server misconfiguration"` body (no `success`
field), and otherwise awaits `fetchMarketCap()`: on success a 200 body with
`success: true`, the result's data and source tag; on a thrown error, the
catch block (lines 212-233) serves the cached value with `source:
"cache-error-fallback"` and the error message when `cache.data` is non-null,
and only otherwise a 500 with `success: false`. -/

/-- The observable parts of the JSON response relevant to the claims.
`success = none` models a body with no `success` field. -/
structure ApiResponse (A : Type) where
  status : Nat
  success : Option Bool
  data : Option A
  source : Option String
  errorMsg : Option String
deriving DecidableEq, Repr

/-- The `try`/`catch` of the handler (lines 188-233) given the outcome of
`await fetchMarketCap()` and the cache as it stands when the catch block
reads it.  An `Except.error` carries the thrown error's `message`. -/
def handlerRespond (outcome : Except String (Option A × Tag))
    (cacheAtCatch : Cache A) : ApiResponse A :=
  match outcome with
  | .ok r =>
    { status := 200, success := some true, data := r.1
      source := some r.2.toSource, errorMsg := none }
  | .error msg =>
    match cacheAtCatch.data with
    | some d =>
      { status := 200, success := some true, data := some d
        source := some "cache-error-fallback", errorMsg := some msg }
    | none =>
      { status := 500, success := some false, data := none
        source := none, errorMsg := some msg }

/-- The whole handler (lines 171-234): method dispatch, `ZORA_API_KEY`
check, then the `try`/`catch`. -/
def handlerRun (method : String) (keySet : Bool)
    (outcome : Except String (Option A × Tag)) (cacheAtCatch : Cache A) :
    ApiResponse A :=
  if method = "OPTIONS" ∨ method = "HEAD" then
    { status := 204, success := none, data := none, source := none
      errorMsg := none }
  else if method ≠ "GET" then
    { status := 405, success := none, data := none, source := none
      errorMsg := none }
  else if keySet = false then
    { status := 500, success := none, data := none, source := none
      errorMsg := some "ZORA_API_KEY not set" }
  else
    handlerRespond outcome cacheAtCatch

/-- **C9.** Error fallback: on a GET with the API key set, when
`fetchMarketCap` throws and a previously cached value is present, the
handler answers `200` with `success: true`, that cached value, source
`"cache-error-fallback"` and the error message; and the handler answers
`500` with `success: false` only when the fetch threw *and* no cached value
exists at all. -/
theorem handler_error_fallback (method : String) (keySet : Bool)
    (outcome : Except String (Option A × Tag)) (c : Cache A) :
    (∀ msg d, method = "GET" → keySet = true → outcome = .error msg →
      c.data = some d →
      handlerRun method keySet outcome c =
        { status := 200, success := some true, data := some d
          source := some "cache-error-fallback", errorMsg := some msg }) ∧
    ((handlerRun method keySet outcome c).status = 500 →
      (handlerRun method keySet outcome c).success = some false →
      c.data = none ∧ ∃ msg, outcome = .error msg) := by
  constructor
  · intro msg d hm hk ho hd
    subst hm hk ho
    simp [handlerRun, handlerRespond, hd]
  · intro h500 hsucc
    by_cases hm1 : method = "OPTIONS" ∨ method = "HEAD"
    · simp [handlerRun, hm1] at h500
    · by_cases hm2 : method = "GET"
      · rcases hk : keySet with _ | _
        · subst hk
          simp [handlerRun, hm1, hm2] at hsucc
        · subst hk
          rcases ho : outcome with msg | r
          · rcases hd : c.data with _ | d
            · exact ⟨rfl, msg, rfl⟩
            · subst ho
              simp [handlerRun, hm1, hm2, handlerRespond, hd] at h500
          · subst ho
            simp [handlerRun, hm1, hm2, handlerRespond] at h500
      · simp [handlerRun, hm1, hm2] at hsucc

/-- Witness for `handler_error_fallback`: with value `42` cached, a GET whose
fetch throws `"Timeout"` is answered `200`/`success: true`/`42`/
`"cache-error-fallback"`; and a `500` with `success: false` (cold cache,
failed fetch) indeed has no cached value. -/
theorem handler_error_fallback_witness :
    handlerRun "GET" true (.error "Timeout")
        (⟨some (42 : ℕ), 30000, 90000, false, none⟩ : Cache ℕ) =
      { status := 200, success := some true, data := some 42
        source := some "cache-error-fallback", errorMsg := some "Timeout" } ∧
    ((handlerRun "GET" true (.error "Timeout") (initCache (A := ℕ))).status = 500 →
      (handlerRun "GET" true (.error "Timeout")
        (initCache (A := ℕ))).success = some false →
      (initCache (A := ℕ)).data = none ∧
        ∃ msg, (.error msg : Except String (Option ℕ × Tag)) = .error "Timeout") := by
  constructor
  · exact (handler_error_fallback "GET" true (.error "Timeout")
      (⟨some (42 : ℕ), 30000, 90000, false, none⟩ : Cache ℕ)).1
      "Timeout" 42 rfl rfl rfl rfl
  · intro h1 h2
    have h := (handler_error_fallback "GET" true
      ((.error "Timeout") : Except String (Option ℕ × Tag))
      (initCache (A := ℕ))).2 h1 h2
    exact ⟨h.1, by obtain ⟨msg, hmsg⟩ := h.2; exact ⟨msg, by rw [← hmsg]⟩⟩
